import Mathlib

/-!
Verification of django-periodic-tasks against its specification.

The development shallowly embeds the scheduler core of the repository:
the cron evaluator (`cron.py`), the `ScheduledTask` / `TaskExecution`
data model and save/clean logic (`models.py`), the registry-to-store
reconciler (`sync.py`), the `exactly_once` execution-permit guard
(`decorators.py`), and the scheduler tick loop (`scheduler.py`).

Time is modelled as natural-number seconds since the Unix epoch (all UTC
instants in the code are timezone-aware datetimes; cron matching happens
at minute granularity).  Database state is modelled as explicit lists of
rows, transactions as pure state passing with rollback expressed by
returning the pre-transaction state, and exceptions as `Option`/`Except`
results.
-/

namespace PeriodicTasks

/-! ## Cron evaluator

Modelled from the spec: the cron matching engine itself is the
third-party `croniter` library, which is not part of the repository
sources (`cron.py` only wraps it).  Per the spec (section 4.1) the
evaluator works on standard 5-field cron expressions, "finds the
earliest strictly-later matching instant" in the named timezone
(including the day-of-month/day-of-week OR rule) and converts the result
to UTC.  We represent an already-parsed expression as the five sets of
admitted field values plus the two star flags that drive the OR rule,
and a timezone as a fixed UTC offset in minutes (DST transitions are
outside the model).  Like `croniter`, the search for a matching instant
is bounded (croniter raises `CroniterBadDateError` after its search
horizon); the model returns `none` in that case, mirroring the
exception. -/

/-- A parsed 5-field cron expression: the admitted values of each field
and whether the day-of-month / day-of-week fields were written as `*`
(which switches the standard cron OR rule for day matching). -/
structure CronExpr where
  minutes : List Nat
  hours : List Nat
  doms : List Nat
  months : List Nat
  dows : List Nat
  domStar : Bool
  dowStar : Bool
deriving DecidableEq

/-- Syntactic validity of a parsed expression: every field set is
nonempty and within the standard 5-field ranges (minute 0-59, hour 0-23,
day-of-month 1-31, month 1-12, day-of-week 0-6).  This is the parsed
counterpart of `validate_cron_expression` (`cron.py`), i.e. of
`croniter.is_valid`. -/
def CronExpr.valid (e : CronExpr) : Bool :=
  !e.minutes.isEmpty && e.minutes.all (fun m => m ≤ 59) &&
  (!e.hours.isEmpty && e.hours.all (fun h => h ≤ 23)) &&
  (!e.doms.isEmpty && e.doms.all (fun d => 1 ≤ d && d ≤ 31)) &&
  (!e.months.isEmpty && e.months.all (fun m => 1 ≤ m && m ≤ 12)) &&
  (!e.dows.isEmpty && e.dows.all (fun d => d ≤ 6))

/-- Gregorian date of a day index (days since 1970-01-01, UTC):
returns (year, month, day).  Standard civil-from-days algorithm. -/
def civilFromDays (z : Nat) : Nat × Nat × Nat :=
  let w := z + 719468
  let era := w / 146097
  let doe := w % 146097
  let yoe := (doe - doe / 1460 + doe / 36524 - doe / 146096) / 365
  let y := yoe + era * 400
  let doy := doe - (365 * yoe + yoe / 4 - yoe / 100)
  let mp := (5 * doy + 2) / 153
  let d := doy - (153 * mp + 2) / 5 + 1
  let m := if mp < 10 then mp + 3 else mp - 9
  (if m ≤ 2 then y + 1 else y, m, d)

/-- Day of week of a day index, cron convention (0 = Sunday).
1970-01-01 was a Thursday. -/
def dowOfDay (z : Nat) : Nat :=
  (z + 4) % 7

/-- Whether the calendar day `z` (days since epoch, in the schedule's
timezone) matches the date fields of the expression, including the
standard cron OR rule: when both day-of-month and day-of-week are
restricted (neither written `*`), the day matches if either of them
matches. -/
def dayMatches (e : CronExpr) (z : Nat) : Bool :=
  let ymd := civilFromDays z
  let dw := dowOfDay z
  e.months.contains ymd.2.1 &&
    (match e.domStar, e.dowStar with
     | true, true => true
     | true, false => e.dows.contains dw
     | false, true => e.doms.contains ymd.2.2
     | false, false => e.doms.contains ymd.2.2 || e.dows.contains dw)

/-- Whether minute-of-day `m` (0 ≤ m < 1440) matches the hour and minute
fields of the expression. -/
def todMatches (e : CronExpr) (m : Nat) : Bool :=
  e.hours.contains (m / 60) && e.minutes.contains (m % 60)

/-- First `n` at or after `s`, within `fuel` candidates, such that
`p n` holds. -/
def findFrom (p : Nat → Bool) : Nat → Nat → Option Nat
  | _, 0 => none
  | s, fuel + 1 => if p s then some s else findFrom p (s + 1) fuel

/-- First matching local minute on day `z`, if the day's date fields
match: `z * 1440` plus the first matching minute of day. -/
def dayFirstMinute (e : CronExpr) (z : Nat) : Option Nat :=
  if dayMatches e z then
    (findFrom (todMatches e) 0 1440).map (fun m => z * 1440 + m)
  else
    none

/-- Scan forward day by day from day `z` for the first day whose date
fields match and that has a matching minute of day. -/
def searchDays (e : CronExpr) : Nat → Nat → Option Nat
  | _, 0 => none
  | z, fuel + 1 =>
    match dayFirstMinute e z with
    | some t => some t
    | none => searchDays e (z + 1) fuel

/-- Search horizon in days, mirroring croniter's bounded search (croniter
raises `CroniterBadDateError` when no matching date is found within its
horizon). Ten years is enough for every satisfiable date pattern,
including Feb 29. -/
def cronSearchDays : Nat := 3660

/-- Earliest matching local minute at or after local minute index `L`. -/
def nextLocal (e : CronExpr) (L : Nat) : Option Nat :=
  let z := L / 1440
  let m := L % 1440
  let sameDay : Option Nat :=
    if dayMatches e z then
      (findFrom (todMatches e) m (1440 - m)).map (fun k => z * 1440 + k)
    else
      none
  match sameDay with
  | some t => some t
  | none => searchDays e (z + 1) cronSearchDays

/-- The `compute_next_run_at` / croniter `get_next` on a parsed expression:
the earliest strictly-later matching instant.  `base` is a UTC instant
in seconds; the candidate instants are the minute boundaries strictly
after `base`, matched against the expression in the schedule's timezone
(a fixed UTC offset of `tzMin` minutes); the result is converted back to
a UTC instant in seconds.  `none` models the `CroniterBadDateError`
raised when no matching instant exists within the search horizon. -/
def nextFireTime (e : CronExpr) (tzMin : Int) (base : Nat) : Option Nat :=
  let L : Int := ((base / 60 : Nat) : Int) + 1 + tzMin
  if 0 ≤ L then
    (nextLocal e L.toNat).map (fun u => (((u : Int) - tzMin)).toNat * 60)
  else
    none

/-! ## Data model (`models.py`)

`ScheduledTask` rows carry the schedule and its tracking fields.  The
stored `cron_expression` string is represented by its parsed form (the
code re-parses it with croniter on every use), and the stored IANA
timezone name by a `String` looked up in a modelled timezone table. -/

/-- The `ScheduledTask.Source` (models.py): where a schedule definition comes
from. -/
inductive Source where
  | code
  | database
deriving DecidableEq

/-- The `TaskExecution.Status` (models.py). -/
inductive ExecStatus where
  | pending
  | completed
deriving DecidableEq

/-- Modelled from the spec: `ZoneInfo` name resolution — the IANA
timezone database is an external collaborator of the repository.  It is
modelled as a finite table from timezone names to fixed UTC offsets in
minutes, with `none` for unrecognized names (`ZoneInfo` raising
`KeyError`/`ValueError`).  DST transitions are outside the model. -/
def tzdb (tz : String) : Option Int :=
  if tz = "UTC" then some 0
  else if tz = "America/New_York" then some (-300)
  else if tz = "Europe/Berlin" then some 60
  else none

/-- The `compute_next_run_at` (cron.py:13-41): resolve the timezone name
(raising — modelled as `none` — for an unknown name), then compute the
next fire time strictly after `base`, returned in UTC.  The code
defaults `base_time` to the current instant; callers in the model pass
it explicitly. -/
def compute_next_run_at (e : CronExpr) (tz : String) (base : Nat) : Option Nat :=
  (tzdb tz).bind (fun off => nextFireTime e off base)

/-- One `ScheduledTask` row (models.py). -/
structure ScheduledTask where
  name : String
  task_path : String
  cron_expression : CronExpr
  timezone : String
  args : List String
  kwargs : List (String × String)
  source : Source
  enabled : Bool
  last_run_at : Option Nat
  next_run_at : Option Nat
  total_run_count : Nat
  queue_name : String
  priority : Int
  backend : String
  created_at : Nat
  updated_at : Nat
deriving DecidableEq

/-- Column names of `ScheduledTask`, for `update_fields` sets. -/
inductive Field where
  | name
  | task_path
  | cron_expression
  | timezone
  | args
  | kwargs
  | source
  | enabled
  | last_run_at
  | next_run_at
  | total_run_count
  | queue_name
  | priority
  | backend
  | created_at
  | updated_at
deriving DecidableEq

/-- The `next_run_at` maintenance at the top of `ScheduledTask.save`
(models.py:100-105): a disabled record is forced to `next_run_at =
null`; an enabled record whose `next_run_at` is null gets a freshly
computed one (`none` when the cron evaluator raises, which propagates
out of save). -/
def saveNextRun (st : ScheduledTask) (now : Nat) : Option ScheduledTask :=
  if !st.enabled then
    some { st with next_run_at := none }
  else if st.next_run_at = none then
    (compute_next_run_at st.cron_expression st.timezone now).map
      (fun t => { st with next_run_at := some t })
  else
    some st

/-- The `ScheduledTask.save` (models.py:92-122).  Returns the row as
persisted together with the effective `update_fields` (`none` meaning a
full-row save), or `none` when save raises.  When a restricted field
set is given it is extended with `updated_at` (so `auto_now` fires) and
with `next_run_at` whenever the save logic changed it; the persisted
row's `updated_at` becomes `now` (`auto_now`). -/
def ScheduledTask.save (st : ScheduledTask) (update_fields : Option (List Field)) (now : Nat) :
    Option (ScheduledTask × Option (List Field)) :=
  (saveNextRun st now).map (fun st1 =>
    let st2 := { st1 with updated_at := now }
    match update_fields with
    | none => (st2, none)
    | some fs =>
      let fs1 := fs.insert Field.updated_at
      let fs2 := if st1.next_run_at ≠ st.next_run_at then fs1.insert Field.next_run_at else fs1
      (st2, some fs2))

/-- Effect of a row write on the stored row: a full save replaces the
whole row, a save restricted to `update_fields` copies only the listed
columns onto the stored row. -/
def applyFields (old new : ScheduledTask) (fields : Option (List Field)) : ScheduledTask :=
  match fields with
  | none => new
  | some fs =>
    { name := if fs.contains Field.name then new.name else old.name
      task_path := if fs.contains Field.task_path then new.task_path else old.task_path
      cron_expression := if fs.contains Field.cron_expression then new.cron_expression else old.cron_expression
      timezone := if fs.contains Field.timezone then new.timezone else old.timezone
      args := if fs.contains Field.args then new.args else old.args
      kwargs := if fs.contains Field.kwargs then new.kwargs else old.kwargs
      source := if fs.contains Field.source then new.source else old.source
      enabled := if fs.contains Field.enabled then new.enabled else old.enabled
      last_run_at := if fs.contains Field.last_run_at then new.last_run_at else old.last_run_at
      next_run_at := if fs.contains Field.next_run_at then new.next_run_at else old.next_run_at
      total_run_count := if fs.contains Field.total_run_count then new.total_run_count else old.total_run_count
      queue_name := if fs.contains Field.queue_name then new.queue_name else old.queue_name
      priority := if fs.contains Field.priority then new.priority else old.priority
      backend := if fs.contains Field.backend then new.backend else old.backend
      created_at := if fs.contains Field.created_at then new.created_at else old.created_at
      updated_at := if fs.contains Field.updated_at then new.updated_at else old.updated_at }

/-- The `ScheduledTask.clean` (models.py:79-90): collect one entry per
offending field — invalid cron expression, unrecognized timezone, task
path without a dot separator — and raise a `ValidationError`
aggregating them iff any check failed.  The model returns the list of
offending fields; the empty list means clean returns normally. -/
def ScheduledTask.clean (st : ScheduledTask) : List Field :=
  (if !st.cron_expression.valid then [Field.cron_expression] else []) ++
  (if (tzdb st.timezone).isNone then [Field.timezone] else []) ++
  (if !(st.task_path.contains '.') then [Field.task_path] else [])

/-! ## Execution permits and the `exactly_once` guard (`decorators.py`) -/

/-- One `TaskExecution` row (models.py): an execution permit, referencing
its owning `ScheduledTask` by name. -/
structure TaskExecution where
  id : Nat
  scheduled_task : String
  status : ExecStatus
  created_at : Nat
  completed_at : Option Nat
deriving DecidableEq

/-- Result of invoking a guard-wrapped task body: the body's return
value, the sentinel `None` returned when the permit check skips the
body, or a propagated exception from the body. -/
inductive CallResult (R : Type) where
  | value (r : R)
  | skipped
  | raised
deriving DecidableEq

/-- The wrapper installed by the `exactly_once` decorator
(decorators.py:50-82), invoked against the permit table `execs`.
`body` is the wrapped body's behaviour for this invocation: `some r`
means it returns `r`, `none` means it raises.  `execId` is the
`_periodic_tasks_execution_id` keyword argument (popped before anything
else; absent means a plain passthrough call with no permit logic).
With a permit id, the wrapper opens a transaction, locks the permit row
filtered to `status = PENDING`, skips with the sentinel when no such row
exists, and otherwise runs the body and marks the row COMPLETED with
`completed_at = now` inside the same transaction — so if the body
raises, the transaction rolls back and the table is unchanged.  Returns
(permit table after the call, call result, whether the body ran). -/
def exactly_once_call {R : Type} (body : Option R) (execs : List TaskExecution)
    (execId : Option Nat) (now : Nat) :
    List TaskExecution × CallResult R × Bool :=
  match execId with
  | none =>
    (execs, (match body with | some r => CallResult.value r | none => CallResult.raised), true)
  | some i =>
    match execs.find? (fun ex => ex.id == i && ex.status == ExecStatus.pending) with
    | none => (execs, CallResult.skipped, false)
    | some _ =>
      match body with
      | none => (execs, CallResult.raised, true)
      | some r =>
        (execs.map (fun ex =>
          if ex.id == i then { ex with status := ExecStatus.completed, completed_at := some now }
          else ex),
         CallResult.value r, true)

/-- A resolved django-tasks task handle as seen through `resolve_task`:
its dotted path, whether its `func` is a wrapper produced by the
`exactly_once` decorator (i.e. a member of the module-level
`_exactly_once_funcs` set, decorators.py:12 and 81), and whether the
function object carries an `_exactly_once` attribute. -/
structure TaskHandle where
  module_path : String
  wrapped : Bool
  attr_exactly_once : Bool
deriving DecidableEq

/-- The `is_exactly_once` (decorators.py:15-17): membership of the task's
function in `_exactly_once_funcs`. -/
def is_exactly_once (t : TaskHandle) : Bool := t.wrapped

/-- The handle of a task body wrapped by `@exactly_once` (and then
`@task()`): the decorator adds the wrapper to `_exactly_once_funcs` but
never sets an `_exactly_once` attribute on it (`functools.wraps` only
copies the inner function's own attributes, and plain task bodies have
none), so the attribute is absent on every handle the decorator
produces. -/
def mkExactlyOnceTask (path : String) : TaskHandle :=
  { module_path := path, wrapped := true, attr_exactly_once := false }

/-- The `getattr(task_obj.func, "_exactly_once", False)` (scheduler.py:108). -/
def getattrExactlyOnce (t : TaskHandle) : Bool := t.attr_exactly_once

/-! ## Reconciler (`sync.py`) -/

/-- A registry `ScheduleEntry` (registry.py): the task (by its
`module_path`) and the schedule/option fields copied onto the DB record
on sync. -/
structure ScheduleEntry where
  task_path : String
  cron_expression : CronExpr
  timezone : String
  args : List String
  kwargs : List (String × String)
  queue_name : String
  priority : Int
  backend : String
deriving DecidableEq

/-- The `defaults` dict of `sync_code_schedules` (sync.py:24-36) applied
to an existing row: every schedule/option field is overwritten, `source`
forced to CODE and `enabled` to true; the tracking fields (among them
`next_run_at`) are not part of the defaults and keep their stored
values. -/
def applyEntryDefaults (st : ScheduledTask) (e : ScheduleEntry) : ScheduledTask :=
  { st with
    task_path := e.task_path
    cron_expression := e.cron_expression
    timezone := e.timezone
    args := e.args
    kwargs := e.kwargs
    queue_name := e.queue_name
    priority := e.priority
    backend := e.backend
    source := Source.code
    enabled := true }

/-- The fresh row `update_or_create` inserts for an unseen name: the
defaults plus the key, other columns at their model-level defaults
(models.py field definitions). -/
def newTaskFromEntry (name : String) (e : ScheduleEntry) (now : Nat) : ScheduledTask :=
  { name := name
    task_path := e.task_path
    cron_expression := e.cron_expression
    timezone := e.timezone
    args := e.args
    kwargs := e.kwargs
    source := Source.code
    enabled := true
    last_run_at := none
    next_run_at := none
    total_run_count := 0
    queue_name := e.queue_name
    priority := e.priority
    backend := e.backend
    created_at := now
    updated_at := now }

/-- Row lookup by the unique `name` key. -/
def getRow (tasks : List ScheduledTask) (name : String) : Option ScheduledTask :=
  tasks.find? (fun r => r.name == name)

/-- Rewrite the row(s) with the given name. -/
def updateRow (tasks : List ScheduledTask) (name : String)
    (f : ScheduledTask → ScheduledTask) : List ScheduledTask :=
  tasks.map (fun r => if r.name == name then f r else r)

/-- The `ScheduledTask.objects.update_or_create(name=..., defaults=...)`
(sync.py:37-40): update the existing row with the defaults and save it
through the model `save()`, or insert a fresh row (also through
`save()`).  `none` models the save raising. -/
def update_or_create (store : List ScheduledTask) (name : String) (e : ScheduleEntry) (now : Nat) :
    Option (List ScheduledTask) :=
  match getRow store name with
  | some st =>
    (ScheduledTask.save (applyEntryDefaults st e) none now).map
      (fun p => updateRow store name (fun _ => p.1))
  | none =>
    (ScheduledTask.save (newTaskFromEntry name e now) none now).map
      (fun p => store ++ [p.1])

/-- The upsert loop of `sync_code_schedules` (sync.py:21-43).  There is
no enclosing transaction in the code: each `update_or_create` commits on
its own, so when one of them raises, the upserts already performed stay
committed — the error value is the store as left behind at the raise. -/
def syncUpserts (now : Nat) : List (String × ScheduleEntry) → List ScheduledTask →
    Except (List ScheduledTask) (List ScheduledTask)
  | [], store => Except.ok store
  | (n, e) :: rest, store =>
    match update_or_create store n e now with
    | some store1 => syncUpserts now rest store1
    | none => Except.error store

/-- The stale-disable pass (sync.py:45-51): one bulk queryset update on
the rows with `source=CODE`, `enabled=True` and a name not among the
registry's entries, setting `enabled=False` and `next_run_at=None`
(a queryset update, bypassing the model save). -/
def disableStale (seen : List String) (store : List ScheduledTask) : List ScheduledTask :=
  store.map (fun st =>
    if st.source == Source.code && st.enabled && !(seen.contains st.name) then
      { st with enabled := false, next_run_at := none }
    else st)

/-- The `sync_code_schedules` (sync.py:9-53): upsert every registry entry in
order, then disable the stale code-owned rows. -/
def sync_code_schedules (entries : List (String × ScheduleEntry))
    (store : List ScheduledTask) (now : Nat) :
    Except (List ScheduledTask) (List ScheduledTask) :=
  match syncUpserts now entries store with
  | Except.error s => Except.error s
  | Except.ok s => Except.ok (disableStale (entries.map Prod.fst) s)

/-! ## Scheduler loop (`scheduler.py`) -/

/-- A call made to the task backend: the `task.using(...)` options plus
the `enqueue(*args, **kwargs)` arguments. -/
structure Dispatch where
  task_path : String
  queue_name : String
  priority : Int
  backend : String
  args : List String
  kwargs : List (String × String)
deriving DecidableEq

/-- The database state the scheduler works on: the two tables plus the
generator of fresh permit ids (`uuid4` in the code). -/
structure DB where
  tasks : List ScheduledTask
  executions : List TaskExecution
  nextExecId : Nat
deriving DecidableEq

/-- The keyword argument carrying the permit id. -/
def executionIdKey : String := "_periodic_tasks_execution_id"

/-- The `PeriodicTaskScheduler._process_task` (scheduler.py:100-124).
Resolves the record's task path and branches on
`getattr(task_obj.func, "_exactly_once", False)`: the permit-gated
branch creates a PENDING `TaskExecution`, merges its id into the
dispatch kwargs and registers the dispatch as a `transaction.on_commit`
callback; the other branch enqueues immediately.  Afterwards
`last_run_at`, `next_run_at` and `total_run_count` are updated and saved
with exactly those three `update_fields`.  On success: the new database
state, the backend calls already made, and the deferred on-commit
callbacks.  On an exception (unresolvable task path, cron evaluator or
save raising) the error value carries the backend calls already made
before the raise — external effects a rollback cannot undo. -/
def _process_task (resolver : String → Option TaskHandle) (now : Nat) (db : DB)
    (st : ScheduledTask) :
    Except (List Dispatch) (DB × List Dispatch × List Dispatch) :=
  match resolver st.task_path with
  | none => Except.error []
  | some t =>
    let gated := getattrExactlyOnce t
    let db1 : DB :=
      if gated then
        { db with
          executions := db.executions ++
            [{ id := db.nextExecId, scheduled_task := st.name, status := ExecStatus.pending,
               created_at := now, completed_at := none }]
          nextExecId := db.nextExecId + 1 }
      else db
    let deferred : List Dispatch :=
      if gated then
        [{ task_path := st.task_path, queue_name := st.queue_name, priority := st.priority,
           backend := st.backend, args := st.args,
           kwargs := st.kwargs ++ [(executionIdKey, toString db.nextExecId)] }]
      else []
    let immediate : List Dispatch :=
      if gated then []
      else
        [{ task_path := st.task_path, queue_name := st.queue_name, priority := st.priority,
           backend := st.backend, args := st.args, kwargs := st.kwargs }]
    match compute_next_run_at st.cron_expression st.timezone now with
    | none => Except.error immediate
    | some nra =>
      let st1 := { st with
                   last_run_at := some now
                   next_run_at := some nra
                   total_run_count := st.total_run_count + 1 }
      match ScheduledTask.save st1
          (some [Field.last_run_at, Field.next_run_at, Field.total_run_count]) now with
      | none => Except.error immediate
      | some p =>
        Except.ok ({ db1 with tasks := updateRow db1.tasks st.name (fun r => applyFields r p.1 p.2) },
                   immediate, deferred)

/-- Per-record processing inside `tick` (scheduler.py:87-98): each due
record runs in its own savepoint; on failure the savepoint rolls back
(the database effects of `_process_task` are discarded, already-made
backend calls are not), and a best-effort fallback recomputes and
persists just `next_run_at` so a failing record does not stay stuck on
a past-due instant; a failure of the fallback itself is swallowed. -/
def processDue (resolver : String → Option TaskHandle) (now : Nat) (db : DB)
    (st : ScheduledTask) : DB × List Dispatch × List Dispatch :=
  match _process_task resolver now db st with
  | Except.ok r => r
  | Except.error enqueued =>
    match compute_next_run_at st.cron_expression st.timezone now with
    | some v =>
      match ScheduledTask.save { st with next_run_at := some v } (some [Field.next_run_at]) now with
      | some p =>
        ({ db with tasks := updateRow db.tasks st.name (fun r => applyFields r p.1 p.2) },
         enqueued, [])
      | none => (db, enqueued, [])
    | none => (db, enqueued, [])

/-- Fold `processDue` over the batch of due rows, accumulating the
backend calls and the deferred on-commit callbacks. -/
def tickLoop (resolver : String → Option TaskHandle) (now : Nat) :
    List ScheduledTask → DB → List Dispatch → List Dispatch →
    DB × List Dispatch × List Dispatch
  | [], db, queue, deferred => (db, queue, deferred)
  | st :: rest, db, queue, deferred =>
    let r := processDue resolver now db st
    tickLoop resolver now rest r.1 (queue ++ r.2.1) (deferred ++ r.2.2)

/-- The tick's row selection (scheduler.py:82-86):
`enabled=True AND next_run_at <= now`. -/
def isDue (now : Nat) (st : ScheduledTask) : Bool :=
  st.enabled && (match st.next_run_at with
                 | some t => decide (t ≤ now)
                 | none => false)

/-- The `_delete_old_executions` (scheduler.py:177-195): bulk-delete the
permits that are non-PENDING and were created more than 24 hours
(86400 s) ago. -/
def _delete_old_executions (now : Nat) (db : DB) : DB :=
  { db with
    executions := db.executions.filter (fun ex =>
      !(decide (ex.created_at < now - 86400) && !(ex.status == ExecStatus.pending))) }

/-- The `_cleanup_stale_executions` (scheduler.py:126-175): select the
PENDING permits older than `max(60, 2*interval)` seconds whose owning
record is enabled, then — outside the selection transaction —
re-dispatch each directly (not deferred) with the permit id merged into
the kwargs, using the owning record's current options; a per-permit
resolver failure is logged and skipped.  No table is modified. -/
def _cleanup_stale_executions (resolver : String → Option TaskHandle)
    (interval now : Nat) (db : DB) : List Dispatch :=
  let threshold := now - max 60 (2 * interval)
  (db.executions.filter (fun ex =>
    ex.status == ExecStatus.pending && decide (ex.created_at < threshold) &&
      (match getRow db.tasks ex.scheduled_task with
       | some st => st.enabled
       | none => false))).filterMap (fun ex =>
    match getRow db.tasks ex.scheduled_task with
    | none => none
    | some st =>
      match resolver st.task_path with
      | none => none
      | some _ =>
        some { task_path := st.task_path, queue_name := st.queue_name, priority := st.priority,
               backend := st.backend, args := st.args,
               kwargs := st.kwargs ++ [(executionIdKey, toString ex.id)] })

/-- The `PeriodicTaskScheduler.tick` (scheduler.py:62-98): stale-permit
recovery and retention cleanup first (their own failures are caught and
logged), then one outer transaction selects the due rows and processes
each in its own savepoint; the on-commit callbacks registered by
permit-gated dispatch fire once the outer transaction commits, so they
are appended to the backend queue at the very end.  Returns the new
database and the backend calls made during this tick, in order. -/
def tick (resolver : String → Option TaskHandle) (interval now : Nat) (db : DB) :
    DB × List Dispatch :=
  let staleRedispatch := _cleanup_stale_executions resolver interval now db
  let db1 := _delete_old_executions now db
  let due := db1.tasks.filter (isDue now)
  let r := tickLoop resolver now due db1 staleRedispatch []
  (r.1, r.2.1 ++ r.2.2)

/-- Decidable equality of `Except` results, for evaluating the model at
concrete inputs. -/
instance {e a : Type} [DecidableEq e] [DecidableEq a] : DecidableEq (Except e a) := fun x y =>
  match x, y with
  | Except.ok u, Except.ok v =>
    if h : u = v then isTrue (by rw [h]) else isFalse (by intro hc; injection hc; contradiction)
  | Except.error u, Except.error v =>
    if h : u = v then isTrue (by rw [h]) else isFalse (by intro hc; injection hc; contradiction)
  | Except.ok _, Except.error _ => isFalse (by intro hc; injection hc)
  | Except.error _, Except.ok _ => isFalse (by intro hc; injection hc)

/-- A COMPLETED permit created more than 24 hours before the cleanup
instant used in the retention witness. -/
def oldCompletedPermit : TaskExecution :=
  { id := 1, scheduled_task := "t", status := ExecStatus.completed,
    created_at := 0, completed_at := some 10 }

/-- A permit table holding just `oldCompletedPermit`. -/
def permitDB : DB :=
  { tasks := [], executions := [oldCompletedPermit], nextExecId := 2 }

/-- A PENDING permit with id 7, used by the guard witnesses. -/
def permitPending : TaskExecution :=
  { id := 7, scheduled_task := "t", status := ExecStatus.pending,
    created_at := 0, completed_at := none }

/-- The permit above after the guard marked it COMPLETED at instant 5. -/
def permitCompleted : TaskExecution :=
  { id := 7, scheduled_task := "t", status := ExecStatus.completed,
    created_at := 0, completed_at := some 5 }

/-! Concrete cron expressions and instants used by the remaining
claims. -/

/-- Full day-of-month range 1..31, the parse of `*` in field 3. -/
def star31 : List Nat := (List.range 31).map (· + 1)

/-- Full month range 1..12, the parse of `*` in field 4. -/
def star12 : List Nat := (List.range 12).map (· + 1)

/-- Full day-of-week range 0..6, the parse of `*` in field 5. -/
def star7 : List Nat := List.range 7

/-- The parse of "* * * * *". -/
def everyMinute : CronExpr :=
  ⟨List.range 60, List.range 24, star31, star12, star7, true, true⟩

/-- The parse of "0 5 * * *". -/
def dailyFive : CronExpr := ⟨[0], [5], star31, star12, star7, true, true⟩

/-- The parse of "0 6 * * *". -/
def dailySix : CronExpr := ⟨[0], [6], star31, star12, star7, true, true⟩

/-- The parse of "0 0 30 2 *": syntactically valid, but February never
has 30 days. -/
def feb30 : CronExpr := ⟨[0], [0], [30], [2], star7, false, true⟩

/-- 2025-01-01T12:00:00Z as seconds since the Unix epoch. -/
def exampleBase : Nat := 1735732800

/-! Inputs for the reconciler claims. -/

/-- The registry entry "task-a": "* * * * *" in UTC, default options. -/
def entryGood : ScheduleEntry :=
  { task_path := "app.tasks.a", cron_expression := everyMinute, timezone := "UTC",
    args := [], kwargs := [], queue_name := "default", priority := 0,
    backend := "default" }

/-- A registry entry with an unrecognized timezone: its upsert raises
when `save` computes `next_run_at` (cron.py raises `ValueError`). -/
def entryBadTz : ScheduleEntry :=
  { entryGood with task_path := "app.tasks.b", timezone := "Mars/Olympus" }

/-- The row the first upsert of the C1 scenario commits. -/
def taskARow : ScheduledTask :=
  { name := "task-a", task_path := "app.tasks.a", cron_expression := everyMinute,
    timezone := "UTC", args := [], kwargs := [], source := Source.code,
    enabled := true, last_run_at := none, next_run_at := some 1735732860,
    total_run_count := 0, queue_name := "default", priority := 0,
    backend := "default", created_at := exampleBase, updated_at := exampleBase }

/-- The "task-a" row as an earlier sync left it: cron "0 5 * * *",
`next_run_at` = 2025-01-02T05:00:00Z (computed from that cron), created
at 2025-01-01T06:00:00Z. -/
def rowDailyFive : ScheduledTask :=
  { name := "task-a", task_path := "app.tasks.a", cron_expression := dailyFive,
    timezone := "UTC", args := [], kwargs := [], source := Source.code,
    enabled := true, last_run_at := none, next_run_at := some 1735794000,
    total_run_count := 0, queue_name := "default", priority := 0,
    backend := "default", created_at := 1735711200, updated_at := 1735711200 }

/-- The registry entry after the developer changes the cron of "task-a"
to "0 6 * * *". -/
def entryDailySix : ScheduleEntry :=
  { entryGood with cron_expression := dailySix }

/-- The `rowDailyFive` after re-syncing with the new cron: the defaults are
copied but `next_run_at` keeps its stale value. -/
def rowDailySixStale : ScheduledTask :=
  { rowDailyFive with cron_expression := dailySix, updated_at := exampleBase }

/-! Inputs for the scheduler dispatch claims. -/

/-- The resolved handle of a task whose body was wrapped by
`@exactly_once`. -/
def eoTask : TaskHandle := mkExactlyOnceTask "app.tasks.eo"

/-- A resolver exposing only that task. -/
def eoResolver : String → Option TaskHandle :=
  fun p => if p == "app.tasks.eo" then some eoTask else none

/-- A due row (next_run_at = 2025-01-01T11:59:00Z) for the permit-gated
task. -/
def eoRow : ScheduledTask :=
  { name := "eo", task_path := "app.tasks.eo", cron_expression := everyMinute,
    timezone := "UTC", args := [], kwargs := [], source := Source.code,
    enabled := true, last_run_at := none, next_run_at := some 1735732740,
    total_run_count := 0, queue_name := "default", priority := 0,
    backend := "default", created_at := 0, updated_at := 0 }

/-- A database holding just the due permit-gated row and no permits. -/
def eoDB : DB := { tasks := [eoRow], executions := [], nextExecId := 0 }

/-- The `eoRow` after `_process_task` updates its tracking fields. -/
def eoRowAfter : ScheduledTask :=
  { eoRow with
    last_run_at := some exampleBase
    next_run_at := some 1735732860
    total_run_count := 1
    updated_at := exampleBase }

/-- A concrete enabled row with a null `next_run_at`, for the save
witness. -/
def rowNeedingNextRun : ScheduledTask :=
  { name := "w", task_path := "app.tasks.w", cron_expression := everyMinute,
    timezone := "UTC", args := [], kwargs := [], source := Source.database,
    enabled := true, last_run_at := none, next_run_at := none,
    total_run_count := 0, queue_name := "default", priority := 0,
    backend := "default", created_at := 0, updated_at := 0 }

/-! ## Tick fault isolation (C8): helper definitions and lemmas -/

/-- The three tracking columns `_process_task` saves. -/
def trackFields : List Field :=
  [Field.last_run_at, Field.next_run_at, Field.total_run_count]

/-- A due row after `_process_task` succeeded at `now` with computed
fire time `v`: tracking fields updated, `updated_at` refreshed. -/
def processedRow (st : ScheduledTask) (now v : Nat) : ScheduledTask :=
  { st with
    last_run_at := some now
    next_run_at := some v
    total_run_count := st.total_run_count + 1
    updated_at := now }

/-- A due row after the best-effort fallback persisted a recomputed
`next_run_at = v` (failure path of `tick`). -/
def fallbackRow (st : ScheduledTask) (now v : Nat) : ScheduledTask :=
  { st with
    next_run_at := some v
    updated_at := now }

/-- The immediate backend call `_process_task` makes for a non-gated
row. -/
def dispatchOf (st : ScheduledTask) : Dispatch :=
  { task_path := st.task_path, queue_name := st.queue_name,
    priority := st.priority, backend := st.backend, args := st.args,
    kwargs := st.kwargs }

/-- The good row of the fault-isolation witness: due at
2025-01-01T12:00:00Z. -/
def c8Good : ScheduledTask :=
  { name := "good", task_path := "app.tasks.a", cron_expression := everyMinute,
    timezone := "UTC", args := [], kwargs := [], source := Source.code,
    enabled := true, last_run_at := none, next_run_at := some 1735732740,
    total_run_count := 0, queue_name := "default", priority := 0,
    backend := "default", created_at := 0, updated_at := 0 }

/-- The failing row of the fault-isolation witness: its task path does
not resolve. -/
def c8Bad : ScheduledTask :=
  { c8Good with name := "bad", task_path := "app.tasks.missing" }

/-- The resolved handle of the good row's task. -/
def c8Handle : TaskHandle :=
  { module_path := "app.tasks.a", wrapped := false, attr_exactly_once := false }

/-- A resolver exposing only the good row's task. -/
def c8Resolver : String → Option TaskHandle :=
  fun p => if p == "app.tasks.a" then some c8Handle else none

/-- The database of the fault-isolation witness. -/
def c8DB : DB := { tasks := [c8Good, c8Bad], executions := [], nextExecId := 0 }

set_option maxRecDepth 1000000

/-! Lower bounds for the search primitives: every result of the search
is at or after its starting point. -/

theorem findFrom_ge (p : Nat → Bool) :
    ∀ fuel s u, findFrom p s fuel = some u → s ≤ u ∧ p u = true := by
  intro fuel
  induction fuel with
  | zero => intro s u h; simp [findFrom] at h
  | succ n ih =>
    intro s u h
    simp only [findFrom] at h
    by_cases hp : p s
    · simp [hp] at h
      subst h
      exact ⟨Nat.le_refl s, hp⟩
    · simp [hp] at h
      have := ih (s + 1) u h
      exact ⟨by omega, this.2⟩

theorem dayFirstMinute_ge (e : CronExpr) (z u : Nat)
    (h : dayFirstMinute e z = some u) : z * 1440 ≤ u := by
  unfold dayFirstMinute at h
  by_cases hd : dayMatches e z
  · simp [hd] at h
    obtain ⟨m, _, hm⟩ := h
    omega
  · simp [hd] at h

theorem searchDays_ge (e : CronExpr) :
    ∀ fuel z u, searchDays e z fuel = some u → z * 1440 ≤ u := by
  intro fuel
  induction fuel with
  | zero => intro z u h; simp [searchDays] at h
  | succ n ih =>
    intro z u h
    simp only [searchDays] at h
    cases hd : dayFirstMinute e z with
    | some t =>
      rw [hd] at h
      simp at h
      have := dayFirstMinute_ge e z t hd
      omega
    | none =>
      rw [hd] at h
      simp at h
      have := ih (z + 1) u h
      omega

theorem nextLocal_ge (e : CronExpr) (L u : Nat)
    (h : nextLocal e L = some u) : L ≤ u := by
  unfold nextLocal at h
  by_cases hd : dayMatches e (L / 1440)
  · simp only [hd, if_true] at h
    cases hf : findFrom (todMatches e) (L % 1440) (1440 - L % 1440) with
    | some k =>
      rw [hf] at h
      simp at h
      have hk := (findFrom_ge (todMatches e) _ _ _ hf).1
      have : L = L / 1440 * 1440 + L % 1440 := by omega
      omega
    | none =>
      rw [hf] at h
      simp at h
      have := searchDays_ge e cronSearchDays (L / 1440 + 1) u h
      have : L < (L / 1440 + 1) * 1440 := by omega
      omega
  · simp only [hd, if_false] at h
    simp at h
    have := searchDays_ge e cronSearchDays (L / 1440 + 1) u h
    have : L < (L / 1440 + 1) * 1440 := by omega
    omega

/-- The evaluator only ever returns instants strictly after its base
instant. -/
theorem nextFireTime_gt (e : CronExpr) (tzMin : Int) (base u : Nat)
    (h : nextFireTime e tzMin base = some u) : base < u := by
  unfold nextFireTime at h
  by_cases hL : (0 : Int) ≤ ((base / 60 : Nat) : Int) + 1 + tzMin
  · simp only [hL, if_true] at h
    cases hn : nextLocal e (((base / 60 : Nat) : Int) + 1 + tzMin).toNat with
    | some v =>
      rw [hn] at h
      simp at h
      have hv := nextLocal_ge e _ _ hn
      have hb : ((base / 60 : Nat) : Int) + 1 + tzMin ≤ (v : Int) := by
        omega
      have hsub : (base / 60 : Nat) + 1 ≤ ((v : Int) - tzMin).toNat := by
        omega
      have hmod : base % 60 < 60 := by omega
      have hdiv : base = base / 60 * 60 + base % 60 := by omega
      omega
    | none =>
      rw [hn] at h
      simp at h
  · simp at h
    obtain ⟨h1, -⟩ := h
    omega

/-! ## Claim theorems -/

/-- C9: retention cleanup deletes exactly the permits that are both
non-PENDING and created more than 24 hours before `now`: a permit
survives the pass iff it is PENDING or not older than 24 hours (so a
COMPLETED permit older than 24 hours is deleted, a COMPLETED permit
younger than 24 hours is kept, and a PENDING permit is kept regardless
of age); the schedule table is untouched. -/
theorem delete_old_executions_spec (now : Nat) (db : DB) (ex : TaskExecution)
    (hmem : ex ∈ db.executions) :
    (ex ∈ (_delete_old_executions now db).executions ↔
      (ex.status = ExecStatus.pending ∨ ¬(ex.created_at < now - 86400))) ∧
    (_delete_old_executions now db).tasks = db.tasks := by
  refine ⟨?_, rfl⟩
  simp only [_delete_old_executions, List.mem_filter, hmem, true_and]
  cases hst : ex.status with
  | pending => simp [hst]
  | completed =>
    by_cases hlt : ex.created_at < now - 86400 <;> simp [hst, hlt]

/-- C9 witness: the retention characterization at a concrete permit
table and instant. -/
theorem delete_old_executions_spec_witness :
    (oldCompletedPermit ∈ (_delete_old_executions 100000 permitDB).executions ↔
      (oldCompletedPermit.status = ExecStatus.pending ∨
        ¬(oldCompletedPermit.created_at < 100000 - 86400))) ∧
    (_delete_old_executions 100000 permitDB).tasks = permitDB.tasks :=
  delete_old_executions_spec 100000 permitDB oldCompletedPermit (by decide)

/-- C7: `clean` aggregates: its error list contains the cron field iff
the cron expression is invalid, the timezone field iff the timezone is
unrecognized, and the task-path field iff the path lacks a dot — all
three checks contribute simultaneously (no short-circuit) — and clean
succeeds (empty error list) iff all three checks pass. -/
theorem clean_aggregates_all_errors (st : ScheduledTask) :
    (Field.cron_expression ∈ st.clean ↔ st.cron_expression.valid = false) ∧
    (Field.timezone ∈ st.clean ↔ tzdb st.timezone = none) ∧
    (Field.task_path ∈ st.clean ↔ st.task_path.contains '.' = false) ∧
    (st.clean = [] ↔
      (st.cron_expression.valid = true ∧ (tzdb st.timezone).isSome = true ∧
        st.task_path.contains '.' = true)) := by
  unfold ScheduledTask.clean
  cases hc : st.cron_expression.valid <;>
    cases ht : tzdb st.timezone <;>
      cases hp : st.task_path.contains '.' <;>
        simp [hc, ht, hp]

/-- C4: given a PENDING permit, invoking the guard-wrapped body twice in
sequence with that permit id runs the body exactly once: the first
invocation runs it, returns its value and marks the permit COMPLETED;
the second invocation does not run the body, returns the skipped
sentinel, and leaves the table unchanged. -/
theorem exactly_once_at_most_once {R : Type} (r1 r2 : R)
    (execs execs1 execs2 : List TaskExecution) (i now now' : Nat)
    (res1 res2 : CallResult R) (ran1 ran2 : Bool)
    (hpend : ∃ ex ∈ execs, ex.id = i ∧ ex.status = ExecStatus.pending)
    (h1 : exactly_once_call (some r1) execs (some i) now = (execs1, res1, ran1))
    (h2 : exactly_once_call (some r2) execs1 (some i) now' = (execs2, res2, ran2)) :
    res1 = CallResult.value r1 ∧ ran1 = true ∧
    (∀ ex ∈ execs1, ex.id = i →
      ex.status = ExecStatus.completed ∧ ex.completed_at = some now) ∧
    res2 = CallResult.skipped ∧ ran2 = false ∧ execs2 = execs1 := by
  obtain ⟨ex0, hmem0, hid0, hst0⟩ := hpend
  have hfind : (execs.find? (fun ex => ex.id == i && ex.status == ExecStatus.pending)).isSome := by
    rw [List.find?_isSome]
    exact ⟨ex0, hmem0, by simp [hid0, hst0]⟩
  cases hf : execs.find? (fun ex => ex.id == i && ex.status == ExecStatus.pending) with
  | none => rw [hf] at hfind; simp at hfind
  | some exf =>
    simp only [exactly_once_call, hf] at h1
    injection h1 with he1 h1'
    injection h1' with hr1 hn1
    subst he1
    subst hr1
    subst hn1
    have hcompleted : ∀ ex ∈ execs.map (fun ex =>
        if ex.id == i then { ex with status := ExecStatus.completed, completed_at := some now }
        else ex), ex.id = i →
        ex.status = ExecStatus.completed ∧ ex.completed_at = some now := by
      intro ex hmem hid
      simp only [List.mem_map] at hmem
      obtain ⟨a, hamem, hfa⟩ := hmem
      by_cases hai : a.id = i
      · simp only [hai, beq_self_eq_true, if_true] at hfa
        rw [← hfa]
        exact ⟨rfl, rfl⟩
      · simp [hai] at hfa
        rw [← hfa] at hid
        exact absurd hid hai
    have hnone : (execs.map (fun ex =>
        if ex.id == i then { ex with status := ExecStatus.completed, completed_at := some now }
        else ex)).find? (fun ex => ex.id == i && ex.status == ExecStatus.pending) = none := by
      rw [List.find?_eq_none]
      intro x hx
      by_cases hxi : x.id = i
      · have hxc := (hcompleted x hx hxi).1
        simp [hxi, hxc]
      · simp [hxi]
    simp only [exactly_once_call, hnone] at h2
    injection h2 with he2 h2'
    injection h2' with hr2 hn2
    exact ⟨rfl, rfl, hcompleted, hr2.symm, hn2.symm, he2.symm⟩

/-- C4 witness: two sequential guarded calls on a concrete one-permit
table. -/
theorem exactly_once_at_most_once_witness :
    CallResult.value (42 : Nat) = CallResult.value 42 ∧ true = true ∧
    (∀ ex ∈ [permitCompleted], ex.id = 7 →
      ex.status = ExecStatus.completed ∧ ex.completed_at = some 5) ∧
    (CallResult.skipped : CallResult Nat) = CallResult.skipped ∧ false = false ∧
    [permitCompleted] = [permitCompleted] := by
  exact @exactly_once_at_most_once Nat 42 43 [permitPending] [permitCompleted] [permitCompleted]
    7 5 6 (CallResult.value 42) CallResult.skipped true false
    ⟨permitPending, List.mem_singleton.mpr rfl, rfl, rfl⟩ (by decide) (by decide)

/-- C10: if the wrapped body raises under a valid PENDING permit, the
guard's transaction rolls back: the permit table is unchanged (the
permit is still PENDING with a null `completed_at`) and the exception
propagates to the caller — and a subsequent invocation with the same
permit id can still run the body. -/
theorem exactly_once_body_exception {R : Type} (r : R)
    (execs : List TaskExecution) (i now now' : Nat)
    (hpend : ∃ ex ∈ execs, ex.id = i ∧ ex.status = ExecStatus.pending) :
    exactly_once_call (none : Option R) execs (some i) now = (execs, CallResult.raised, true) ∧
    (exactly_once_call (some r) execs (some i) now').2.1 = CallResult.value r ∧
    (exactly_once_call (some r) execs (some i) now').2.2 = true := by
  obtain ⟨ex0, hmem0, hid0, hst0⟩ := hpend
  have hfind : (execs.find? (fun ex => ex.id == i && ex.status == ExecStatus.pending)).isSome := by
    rw [List.find?_isSome]
    exact ⟨ex0, hmem0, by simp [hid0, hst0]⟩
  cases hf : execs.find? (fun ex => ex.id == i && ex.status == ExecStatus.pending) with
  | none => rw [hf] at hfind; simp at hfind
  | some exf =>
    refine ⟨?_, ?_, ?_⟩ <;> simp [exactly_once_call, hf]

/-- C10 witness: the body raises, the permit table is untouched, and a
retry with the same permit id runs the body. -/
theorem exactly_once_body_exception_witness :
    exactly_once_call (none : Option Nat) [permitPending] (some 7) 9 =
      ([permitPending], CallResult.raised, true) ∧
    (exactly_once_call (some 1) [permitPending] (some 7) 11).2.1 = CallResult.value 1 ∧
    (exactly_once_call (some 1) [permitPending] (some 7) 11).2.2 = true := by
  exact exactly_once_body_exception 1 [permitPending] 7 9 11
    ⟨permitPending, List.mem_singleton.mpr rfl, rfl, rfl⟩

/-- C5 counterexample: "0 0 30 2 *" passes the 5-field validity check
(as it does `croniter.is_valid`), yet the evaluator finds no matching
instant and raises (`none`) instead of returning a UTC timestamp
strictly after the base — so `nextFireTime` does not return a
strictly-later timestamp for *every* valid expression. -/
theorem nextFireTime_not_total_on_valid_exprs :
    CronExpr.valid feb30 = true ∧ nextFireTime feb30 0 exampleBase = none := by
  constructor
  · decide
  · decide

/-- C5 (amended): for a valid cron expression, *whenever* the evaluator
returns a fire time it is strictly after the base instant, and chaining
the result as the next call's base yields a strictly increasing
sequence. -/
theorem nextFireTime_strictly_increasing (e : CronExpr) (tzMin : Int)
    (base u v : Nat) (_hvalid : CronExpr.valid e = true)
    (h1 : nextFireTime e tzMin base = some u)
    (h2 : nextFireTime e tzMin u = some v) :
    base < u ∧ u < v :=
  ⟨nextFireTime_gt e tzMin base u h1, nextFireTime_gt e tzMin u v h2⟩

/-- C5 witness: chaining "* * * * *" from 2025-01-01T12:00:00Z gives
12:01:00 and then 12:02:00. -/
theorem nextFireTime_strictly_increasing_witness :
    (1735732800 : Nat) < 1735732860 ∧ (1735732860 : Nat) < 1735732920 :=
  nextFireTime_strictly_increasing everyMinute 0 1735732800 1735732860 1735732920
    (by decide) (by decide) (by decide)

/-- C1: `sync_code_schedules` is not atomic — when the second upsert of
a two-entry registry raises, the first upsert stays committed, so the
store is left with one new row instead of being restored to its initial
(empty) state. -/
theorem sync_not_atomic_on_failure :
    sync_code_schedules [("task-a", entryGood), ("task-b", entryBadTz)] [] exampleBase =
      Except.error [taskARow] ∧ [taskARow] ≠ ([] : List ScheduledTask) := by
  refine ⟨by rfl, by decide⟩

/-- C2 evaluated at the failing input: re-syncing an existing enabled
record whose cron changed leaves `next_run_at` at the stale value
computed from the old cron (2025-01-02T05:00:00Z) — the upsert does not
recompute it, although recomputing from the new cron at sync time would
give 2025-01-02T06:00:00Z. -/
theorem sync_update_keeps_stale_next_run_at :
    sync_code_schedules [("task-a", entryDailySix)] [rowDailyFive] exampleBase =
      Except.ok [rowDailySixStale] ∧
    rowDailySixStale.next_run_at = some 1735794000 ∧
    compute_next_run_at dailySix "UTC" exampleBase = some 1735797600 ∧
    (1735794000 : Nat) ≠ 1735797600 := by
  refine ⟨by rfl, by rfl, by decide, by decide⟩

/-- C3: the scheduler does not take the permit-gated branch for a task
wrapped by the guard decorator.  `is_exactly_once` recognizes the
wrapper (the registry-set membership the enqueue path checks), but
`_process_task` branches on `getattr(task_obj.func, "_exactly_once",
False)`, an attribute the decorator never sets — so processing a due
record of the wrapped task creates no PENDING permit, merges no permit
id into the kwargs, and dispatches immediately instead of deferring to
transaction commit. -/
theorem scheduler_ignores_exactly_once_marker :
    is_exactly_once eoTask = true ∧
    getattrExactlyOnce eoTask = false ∧
    _process_task eoResolver exampleBase eoDB eoRow =
      Except.ok ({ tasks := [eoRowAfter], executions := [], nextExecId := 0 },
        [{ task_path := "app.tasks.eo", queue_name := "default", priority := 0,
           backend := "default", args := [], kwargs := [] }], []) := by
  refine ⟨rfl, rfl, by decide⟩

/-- C6: `save` forces `next_run_at` to null for a disabled record,
computes a fresh fire time for an enabled record whose `next_run_at` is
null, and, when a restricted field subset is saved, the persisted field
set is exactly the requested fields plus `updated_at` (always) plus
`next_run_at` (exactly when the save logic changed it). -/
theorem save_spec (st st' : ScheduledTask) (uf eff : Option (List Field))
    (now t : Nat) (fs efs : List Field) (f : Field)
    (h : ScheduledTask.save st uf now = some (st', eff)) :
    (st.enabled = false → st'.next_run_at = none) ∧
    (st.enabled = true → st.next_run_at = none →
      compute_next_run_at st.cron_expression st.timezone now = some t →
      st'.next_run_at = some t) ∧
    (uf = some fs → eff = some efs →
      (f ∈ efs ↔ f ∈ fs ∨ f = Field.updated_at ∨
        (f = Field.next_run_at ∧ st'.next_run_at ≠ st.next_run_at))) := by
  unfold ScheduledTask.save at h
  cases hsn : saveNextRun st now with
  | none => rw [hsn] at h; simp at h
  | some st1 =>
    rw [hsn] at h
    simp only [Option.map_some'] at h
    injection h with h
    have hP1 : st.enabled = false → st1.next_run_at = none := by
      intro he
      unfold saveNextRun at hsn
      rw [he] at hsn
      simp at hsn
      rw [← hsn]
    have hP2 : st.enabled = true → st.next_run_at = none →
        compute_next_run_at st.cron_expression st.timezone now = some t →
        st1.next_run_at = some t := by
      intro he hn hc
      unfold saveNextRun at hsn
      rw [he, hn, hc] at hsn
      simp at hsn
      rw [← hsn]
    cases uf with
    | none =>
      injection h with h1 h2
      refine ⟨?_, ?_, ?_⟩
      · intro he
        rw [← h1]
        exact hP1 he
      · intro he hn hc
        rw [← h1]
        exact hP2 he hn hc
      · intro huf
        exact absurd huf (by simp)
    | some fs0 =>
      injection h with h1 h2
      refine ⟨?_, ?_, ?_⟩
      · intro he
        rw [← h1]
        exact hP1 he
      · intro he hn hc
        rw [← h1]
        exact hP2 he hn hc
      · intro huf hef
        injection huf with huf
        subst huf
        rw [← h2] at hef
        injection hef with hef
        subst hef
        have hnx : st'.next_run_at = st1.next_run_at := by
          rw [← h1]
        by_cases hch : st1.next_run_at = st.next_run_at
        · simp only [hch, ne_eq, not_true_eq_false, if_false, ite_self]
          simp [List.mem_insert_iff, hnx, hch]
          tauto
        · simp only [ne_eq, hch, not_false_eq_true, if_true]
          simp [List.mem_insert_iff, hnx, hch]
          tauto

/-- C6 witness: saving `rowNeedingNextRun` with
`update_fields=["enabled"]` at 2025-01-01T12:00:00Z computes
`next_run_at` and persists `enabled`, `updated_at` and `next_run_at`. -/
theorem save_spec_witness :
    (rowNeedingNextRun.enabled = false →
      ({ rowNeedingNextRun with next_run_at := some 1735732860, updated_at := exampleBase
         } : ScheduledTask).next_run_at = none) ∧
    (rowNeedingNextRun.enabled = true → rowNeedingNextRun.next_run_at = none →
      compute_next_run_at rowNeedingNextRun.cron_expression rowNeedingNextRun.timezone
        exampleBase = some 1735732860 →
      ({ rowNeedingNextRun with next_run_at := some 1735732860, updated_at := exampleBase
         } : ScheduledTask).next_run_at = some 1735732860) ∧
    (some [Field.enabled] = some [Field.enabled] →
      some [Field.next_run_at, Field.updated_at, Field.enabled] =
        some [Field.next_run_at, Field.updated_at, Field.enabled] →
      (Field.next_run_at ∈ [Field.next_run_at, Field.updated_at, Field.enabled] ↔
        Field.next_run_at ∈ [Field.enabled] ∨ Field.next_run_at = Field.updated_at ∨
          (Field.next_run_at = Field.next_run_at ∧
            ({ rowNeedingNextRun with next_run_at := some 1735732860, updated_at := exampleBase
               } : ScheduledTask).next_run_at ≠ rowNeedingNextRun.next_run_at))) := by
  exact save_spec rowNeedingNextRun
    { rowNeedingNextRun with next_run_at := some 1735732860, updated_at := exampleBase }
    (some [Field.enabled])
    (some [Field.next_run_at, Field.updated_at, Field.enabled])
    exampleBase 1735732860 [Field.enabled]
    [Field.next_run_at, Field.updated_at, Field.enabled] Field.next_run_at
    (by decide)

theorem applyFields_tracked (r p : ScheduledTask) :
    applyFields r p (some (trackFields.insert Field.updated_at)) =
      { r with
        last_run_at := p.last_run_at
        next_run_at := p.next_run_at
        total_run_count := p.total_run_count
        updated_at := p.updated_at } := rfl

theorem applyFields_fallback (r p : ScheduledTask) :
    applyFields r p (some ([Field.next_run_at].insert Field.updated_at)) =
      { r with
        next_run_at := p.next_run_at
        updated_at := p.updated_at } := rfl

/-- The `save` on an enabled row whose `next_run_at` is already set: the row
is persisted unchanged except for `auto_now` on `updated_at`, and the
effective field set is the requested one plus `updated_at`. -/
theorem save_enabled_nonnull (st : ScheduledTask) (fields : List Field) (now : Nat)
    (hen : st.enabled = true) (hnn : st.next_run_at ≠ none) :
    ScheduledTask.save st (some fields) now =
      some ({ st with updated_at := now }, some (fields.insert Field.updated_at)) := by
  simp [ScheduledTask.save, saveNextRun, hen, hnn]

/-- The `saveNextRun` never changes the `name` column. -/
theorem saveNextRun_name (st st1 : ScheduledTask) (now : Nat)
    (h : saveNextRun st now = some st1) : st1.name = st.name := by
  unfold saveNextRun at h
  split at h
  · injection h with h
    rw [← h]
  · split at h
    · cases hc : compute_next_run_at st.cron_expression st.timezone now with
      | none => rw [hc] at h; simp at h
      | some u =>
        rw [hc] at h
        simp at h
        rw [← h]
    · injection h with h
      rw [← h]

/-- Shape of a restricted save that succeeded: the persisted row keeps
its name and the effective field set extends the requested one only by
`updated_at` and `next_run_at`. -/
theorem save_some_shape (st : ScheduledTask) (fields : List Field) (now : Nat)
    (st' : ScheduledTask) (eff : Option (List Field))
    (h : ScheduledTask.save st (some fields) now = some (st', eff)) :
    st'.name = st.name ∧ ∃ efs, eff = some efs ∧
      (∀ f, f ∈ efs → f ∈ fields ∨ f = Field.updated_at ∨ f = Field.next_run_at) := by
  unfold ScheduledTask.save at h
  cases hsn : saveNextRun st now with
  | none => rw [hsn] at h; simp at h
  | some st1 =>
    rw [hsn] at h
    simp only [Option.map_some'] at h
    injection h with h
    injection h with h1 h2
    have hname : st1.name = st.name := saveNextRun_name st st1 now hsn
    constructor
    · rw [← h1]
      exact hname
    · refine ⟨_, h2.symm, ?_⟩
      intro f hf
      by_cases hch : st1.next_run_at ≠ st.next_run_at
      · simp only [if_pos hch] at hf
        rcases List.mem_insert_iff.mp hf with hnext | hf1
        · exact Or.inr (Or.inr hnext)
        · rcases List.mem_insert_iff.mp hf1 with hupd | hfs
          · exact Or.inr (Or.inl hupd)
          · exact Or.inl hfs
      · simp only [if_neg hch] at hf
        rcases List.mem_insert_iff.mp hf with hupd | hfs
        · exact Or.inr (Or.inl hupd)
        · exact Or.inl hfs

/-- The `applyFields` keeps the `name` column when the field set omits it. -/
theorem applyFields_name_of_not_mem (r p : ScheduledTask) (fs : List Field)
    (h : Field.name ∉ fs) : (applyFields r p (some fs)).name = r.name := by
  cases hc : fs.contains Field.name with
  | false => simp [applyFields, hc, h]
  | true => exact absurd (List.mem_of_elem_eq_true hc) h

/-- Looking up a name other than the rewritten one is unaffected by
`updateRow`, provided the rewrite preserves the name of the rows it is
applied to. -/
theorem getRow_updateRow_ne (ts : List ScheduledTask) (n m : String)
    (g : ScheduledTask → ScheduledTask)
    (hg : ∀ r, r.name = n → (g r).name = r.name) (hm : m ≠ n) :
    getRow (updateRow ts n g) m = getRow ts m := by
  induction ts with
  | nil => rfl
  | cons r rs ih =>
    show List.find? (fun x => x.name == m)
        ((if r.name == n then g r else r) :: updateRow rs n g) =
      List.find? (fun x => x.name == m) (r :: rs)
    by_cases hrn : r.name = n
    · have h1 : (if (r.name == n) = true then g r else r) = g r := by simp [hrn]
      have h2 : ((g r).name == m) = false := by
        rw [hg r hrn, hrn]
        exact beq_eq_false_iff_ne.mpr (fun hc => hm hc.symm)
      have h3 : (r.name == m) = false := by
        rw [hrn]
        exact beq_eq_false_iff_ne.mpr (fun hc => hm hc.symm)
      rw [h1]
      simp only [List.find?_cons, h2, h3]
      exact ih
    · have h1 : (if (r.name == n) = true then g r else r) = r := by simp [hrn]
      rw [h1]
      simp only [List.find?_cons]
      cases hrm : (r.name == m) with
      | true => rfl
      | false => exact ih

/-- Looking up the rewritten name after `updateRow` gives the rewrite of
the previous row. -/
theorem getRow_updateRow_self (ts : List ScheduledTask) (n : String)
    (g : ScheduledTask → ScheduledTask)
    (hg : ∀ r, r.name = n → (g r).name = r.name) :
    getRow (updateRow ts n g) n = (getRow ts n).map g := by
  induction ts with
  | nil => rfl
  | cons r rs ih =>
    show List.find? (fun x => x.name == n)
        ((if r.name == n then g r else r) :: updateRow rs n g) =
      (List.find? (fun x => x.name == n) (r :: rs)).map g
    by_cases hrn : r.name = n
    · have h1 : (if (r.name == n) = true then g r else r) = g r := by simp [hrn]
      have h2 : ((g r).name == n) = true := by
        rw [hg r hrn, hrn]
        exact beq_self_eq_true n
      have h3 : (r.name == n) = true := by
        rw [hrn]
        exact beq_self_eq_true n
      rw [h1]
      simp only [List.find?_cons, h2, h3, Option.map_some']
    · have h1 : (if (r.name == n) = true then g r else r) = r := by simp [hrn]
      have h3 : (r.name == n) = false := beq_eq_false_iff_ne.mpr hrn
      rw [h1]
      simp only [List.find?_cons, h3]
      exact ih

/-- With unique names (the model of the unique constraint on `name`),
every row is found under its own name. -/
theorem getRow_of_mem_nodup (ts : List ScheduledTask) (st : ScheduledTask)
    (hnodup : (ts.map ScheduledTask.name).Nodup) (hmem : st ∈ ts) :
    getRow ts st.name = some st := by
  induction ts with
  | nil => simp at hmem
  | cons r rs ih =>
    rcases List.mem_cons.mp hmem with heq | hmem'
    · subst heq
      show List.find? (fun x => x.name == st.name) (st :: rs) = some st
      simp only [List.find?_cons, beq_self_eq_true]
    · have hne : r.name ≠ st.name := by
        intro hc
        apply (List.nodup_cons.mp hnodup).1
        rw [hc]
        exact List.mem_map_of_mem _ hmem'
      have h3 : (r.name == st.name) = false := beq_eq_false_iff_ne.mpr hne
      show List.find? (fun x => x.name == st.name) (r :: rs) = some st
      simp only [List.find?_cons, h3]
      exact ih (List.nodup_cons.mp hnodup).2 hmem'

theorem process_task_ok_of (resolver : String → Option TaskHandle) (now : Nat) (db : DB)
    (st : ScheduledTask) (t : TaskHandle) (v : Nat)
    (hres : resolver st.task_path = some t) (hgate : getattrExactlyOnce t = false)
    (hcomp : compute_next_run_at st.cron_expression st.timezone now = some v)
    (hen : st.enabled = true) :
    _process_task resolver now db st =
      Except.ok
        ({ db with
            tasks := updateRow db.tasks st.name (fun r =>
              applyFields r (processedRow st now v)
                (some (trackFields.insert Field.updated_at))) },
          [dispatchOf st], []) := by
  have hsave := save_enabled_nonnull
    { st with
      last_run_at := some now
      next_run_at := some v
      total_run_count := st.total_run_count + 1 }
    [Field.last_run_at, Field.next_run_at, Field.total_run_count] now hen (by simp)
  unfold _process_task
  rw [hres]
  simp only [hgate, Bool.false_eq_true, if_false, hcomp]
  rw [hsave]
  rfl

theorem processDue_ok_of (resolver : String → Option TaskHandle) (now : Nat) (db : DB)
    (st : ScheduledTask) (t : TaskHandle) (v : Nat)
    (hres : resolver st.task_path = some t) (hgate : getattrExactlyOnce t = false)
    (hcomp : compute_next_run_at st.cron_expression st.timezone now = some v)
    (hen : st.enabled = true) :
    processDue resolver now db st =
      ({ db with
          tasks := updateRow db.tasks st.name (fun r =>
            applyFields r (processedRow st now v)
              (some (trackFields.insert Field.updated_at))) },
        [dispatchOf st], []) := by
  unfold processDue
  rw [process_task_ok_of resolver now db st t v hres hgate hcomp hen]

theorem processDue_err_of (resolver : String → Option TaskHandle) (now : Nat) (db : DB)
    (st : ScheduledTask) (v : Nat)
    (hres : resolver st.task_path = none)
    (hcomp : compute_next_run_at st.cron_expression st.timezone now = some v)
    (hen : st.enabled = true) :
    processDue resolver now db st =
      ({ db with
          tasks := updateRow db.tasks st.name (fun r =>
            applyFields r (fallbackRow st now v)
              (some ([Field.next_run_at].insert Field.updated_at))) },
        [], []) := by
  have hsave := save_enabled_nonnull { st with next_run_at := some v }
    [Field.next_run_at] now hen (by simp)
  unfold processDue _process_task
  rw [hres]
  simp only [hcomp]
  rw [hsave]
  rfl

theorem process_task_tasks_frame (resolver : String → Option TaskHandle) (now : Nat)
    (db : DB) (st : ScheduledTask) (out : DB × List Dispatch × List Dispatch)
    (h : _process_task resolver now db st = Except.ok out)
    (m : String) (hm : m ≠ st.name) :
    getRow out.1.tasks m = getRow db.tasks m := by
  unfold _process_task at h
  split at h
  · simp at h
  · rename_i t heqres
    split at h
    · simp at h
    · rename_i nra heqcomp
      dsimp only at h
      split at h
      · simp at h
      · rename_i p heqsave
        injection h with h
        subst h
        obtain ⟨hname, efs, heff, hmemf⟩ :=
          save_some_shape _ _ _ p.1 p.2 (by rw [← heqsave])
        have hnm : Field.name ∉ efs := by
          intro hin
          rcases hmemf Field.name hin with hin1 | hin1 | hin1 <;> simp at hin1
        have hg : ∀ r : ScheduledTask, r.name = st.name →
            ((fun r => applyFields r p.1 p.2) r).name = r.name := by
          intro r _
          rw [heff]
          exact applyFields_name_of_not_mem r p.1 efs hnm
        show getRow (updateRow _ st.name _) m = getRow db.tasks m
        rw [getRow_updateRow_ne _ st.name m _ hg hm]
        by_cases hgt : getattrExactlyOnce t = true <;> simp [hgt]

theorem processDue_tasks_frame (resolver : String → Option TaskHandle) (now : Nat)
    (db : DB) (st : ScheduledTask) (m : String) (hm : m ≠ st.name) :
    getRow (processDue resolver now db st).1.tasks m = getRow db.tasks m := by
  unfold processDue
  cases hp : _process_task resolver now db st with
  | ok out => exact process_task_tasks_frame resolver now db st out hp m hm
  | error enq =>
    dsimp only
    cases hc : compute_next_run_at st.cron_expression st.timezone now with
    | none => rfl
    | some v =>
      dsimp only
      cases hs : ScheduledTask.save { st with next_run_at := some v }
          (some [Field.next_run_at]) now with
      | none => rfl
      | some p =>
        obtain ⟨hname, efs, heff, hmemf⟩ := save_some_shape _ _ _ p.1 p.2 (by rw [← hs])
        have hnm : Field.name ∉ efs := by
          intro hin
          rcases hmemf Field.name hin with hin1 | hin1 | hin1 <;> simp at hin1
        have hg : ∀ r : ScheduledTask, r.name = st.name →
            ((fun r => applyFields r p.1 p.2) r).name = r.name := by
          intro r _
          rw [heff]
          exact applyFields_name_of_not_mem r p.1 efs hnm
        exact getRow_updateRow_ne _ st.name m _ hg hm

theorem tickLoop_step (resolver : String → Option TaskHandle) (now : Nat)
    (d : ScheduledTask) (ds : List ScheduledTask) (db : DB)
    (queue deferred : List Dispatch) :
    tickLoop resolver now (d :: ds) db queue deferred =
      tickLoop resolver now ds (processDue resolver now db d).1
        (queue ++ (processDue resolver now db d).2.1)
        (deferred ++ (processDue resolver now db d).2.2) := rfl

theorem tickLoop_queue_mono (resolver : String → Option TaskHandle) (now : Nat) :
    ∀ (ds : List ScheduledTask) (db : DB) (queue deferred : List Dispatch),
      ∃ tail, (tickLoop resolver now ds db queue deferred).2.1 = queue ++ tail := by
  intro ds
  induction ds with
  | nil =>
    intro db queue deferred
    exact ⟨[], by simp [tickLoop]⟩
  | cons d ds ih =>
    intro db queue deferred
    rw [tickLoop_step]
    obtain ⟨tail, htail⟩ := ih (processDue resolver now db d).1
      (queue ++ (processDue resolver now db d).2.1)
      (deferred ++ (processDue resolver now db d).2.2)
    exact ⟨(processDue resolver now db d).2.1 ++ tail, by rw [htail, List.append_assoc]⟩

theorem tickLoop_tasks_frame (resolver : String → Option TaskHandle) (now : Nat) :
    ∀ (ds : List ScheduledTask) (db : DB) (queue deferred : List Dispatch) (m : String),
      (∀ r ∈ ds, r.name ≠ m) →
      getRow (tickLoop resolver now ds db queue deferred).1.tasks m = getRow db.tasks m := by
  intro ds
  induction ds with
  | nil =>
    intro db queue deferred m _
    rfl
  | cons d ds ih =>
    intro db queue deferred m hne
    rw [tickLoop_step]
    rw [ih _ _ _ m (fun r hr => hne r (List.mem_cons_of_mem d hr))]
    exact processDue_tasks_frame resolver now db d m
      (fun hc => hne d (List.mem_cons_self d ds) hc.symm)

theorem tickLoop_success_record (resolver : String → Option TaskHandle) (now : Nat)
    (t : TaskHandle) (v : Nat) (st : ScheduledTask)
    (hres : resolver st.task_path = some t) (hgate : getattrExactlyOnce t = false)
    (hcomp : compute_next_run_at st.cron_expression st.timezone now = some v)
    (hen : st.enabled = true) :
    ∀ (ds : List ScheduledTask) (db : DB) (queue deferred : List Dispatch),
      st ∈ ds → (ds.map ScheduledTask.name).Nodup →
      getRow db.tasks st.name = some st →
      getRow (tickLoop resolver now ds db queue deferred).1.tasks st.name =
          some (processedRow st now v) ∧
        dispatchOf st ∈ (tickLoop resolver now ds db queue deferred).2.1 := by
  intro ds
  induction ds with
  | nil =>
    intro db queue deferred hmem
    simp at hmem
  | cons d ds ih =>
    intro db queue deferred hmem hnodup hrow
    rw [tickLoop_step]
    rcases List.mem_cons.mp hmem with heq | hmem'
    · subst heq
      rw [processDue_ok_of resolver now db st t v hres hgate hcomp hen]
      have hns : ∀ r ∈ ds, r.name ≠ st.name := by
        intro r hr hc
        exact absurd (hc ▸ List.mem_map_of_mem ScheduledTask.name hr)
          (List.nodup_cons.mp hnodup).1
      constructor
      · rw [tickLoop_tasks_frame resolver now ds _ _ _ st.name hns]
        show getRow (updateRow db.tasks st.name _) st.name = _
        rw [getRow_updateRow_self db.tasks st.name _
          (fun r _ => applyFields_name_of_not_mem r _ _ (by decide))]
        rw [hrow]
        show some (applyFields st (processedRow st now v)
          (some (trackFields.insert Field.updated_at))) = _
        rw [applyFields_tracked]
        rfl
      · obtain ⟨tail, htail⟩ := tickLoop_queue_mono resolver now ds _ _ _
        rw [htail]
        simp [dispatchOf]
    · have hd0 : d.name ≠ st.name := by
        intro hc
        apply (List.nodup_cons.mp hnodup).1
        rw [hc]
        exact List.mem_map_of_mem _ hmem'
      have hrow' : getRow (processDue resolver now db d).1.tasks st.name = some st := by
        rw [processDue_tasks_frame resolver now db d st.name (fun hc => hd0 hc.symm)]
        exact hrow
      exact ih _ _ _ hmem' (List.nodup_cons.mp hnodup).2 hrow'

theorem tickLoop_failing_record (resolver : String → Option TaskHandle) (now : Nat)
    (v : Nat) (st : ScheduledTask)
    (hres : resolver st.task_path = none)
    (hcomp : compute_next_run_at st.cron_expression st.timezone now = some v)
    (hen : st.enabled = true) :
    ∀ (ds : List ScheduledTask) (db : DB) (queue deferred : List Dispatch),
      st ∈ ds → (ds.map ScheduledTask.name).Nodup →
      getRow db.tasks st.name = some st →
      getRow (tickLoop resolver now ds db queue deferred).1.tasks st.name =
        some (fallbackRow st now v) := by
  intro ds
  induction ds with
  | nil =>
    intro db queue deferred hmem
    simp at hmem
  | cons d ds ih =>
    intro db queue deferred hmem hnodup hrow
    rw [tickLoop_step]
    rcases List.mem_cons.mp hmem with heq | hmem'
    · subst heq
      rw [processDue_err_of resolver now db st v hres hcomp hen]
      have hns : ∀ r ∈ ds, r.name ≠ st.name := by
        intro r hr hc
        exact absurd (hc ▸ List.mem_map_of_mem ScheduledTask.name hr)
          (List.nodup_cons.mp hnodup).1
      rw [tickLoop_tasks_frame resolver now ds _ _ _ st.name hns]
      show getRow (updateRow db.tasks st.name _) st.name = _
      rw [getRow_updateRow_self db.tasks st.name _
        (fun r _ => applyFields_name_of_not_mem r _ _ (by decide))]
      rw [hrow]
      show some (applyFields st (fallbackRow st now v)
        (some ([Field.next_run_at].insert Field.updated_at))) = _
      rw [applyFields_fallback]
      rfl
    · have hd0 : d.name ≠ st.name := by
        intro hc
        apply (List.nodup_cons.mp hnodup).1
        rw [hc]
        exact List.mem_map_of_mem _ hmem'
      have hrow' : getRow (processDue resolver now db d).1.tasks st.name = some st := by
        rw [processDue_tasks_frame resolver now db d st.name (fun hc => hd0 hc.symm)]
        exact hrow
      exact ih _ _ _ hmem' (List.nodup_cons.mp hnodup).2 hrow'

theorem compute_next_run_at_gt (e : CronExpr) (tz : String) (base v : Nat)
    (h : compute_next_run_at e tz base = some v) : base < v := by
  unfold compute_next_run_at at h
  cases ht : tzdb tz with
  | none => rw [ht] at h; simp at h
  | some off =>
    rw [ht] at h
    simp only [Option.some_bind] at h
    exact nextFireTime_gt e off base v h

theorem isDue_spec (now : Nat) (st : ScheduledTask) (h : isDue now st = true) :
    st.enabled = true ∧ ∃ tg, st.next_run_at = some tg ∧ tg ≤ now := by
  unfold isDue at h
  rcases (Bool.and_eq_true _ _).mp h with ⟨h1, h2⟩
  refine ⟨h1, ?_⟩
  cases hn : st.next_run_at with
  | none => rw [hn] at h2; simp at h2
  | some tg =>
    rw [hn] at h2
    exact ⟨tg, rfl, by simpa using h2⟩

theorem tick_fault_isolation
    (resolver : String → Option TaskHandle) (interval now : Nat) (db : DB)
    (good bad : ScheduledTask) (t : TaskHandle) (v w tOld : Nat)
    (hnodup : (db.tasks.map ScheduledTask.name).Nodup)
    (hgoodmem : good ∈ db.tasks) (hbadmem : bad ∈ db.tasks)
    (hgooddue : isDue now good = true) (hbaddue : isDue now bad = true)
    (hres : resolver good.task_path = some t) (hgate : getattrExactlyOnce t = false)
    (hcompg : compute_next_run_at good.cron_expression good.timezone now = some v)
    (hresbad : resolver bad.task_path = none)
    (hcompb : compute_next_run_at bad.cron_expression bad.timezone now = some w)
    (hbadold : bad.next_run_at = some tOld) :
    getRow (tick resolver interval now db).1.tasks good.name =
        some (processedRow good now v) ∧
      dispatchOf good ∈ (tick resolver interval now db).2 ∧
      getRow (tick resolver interval now db).1.tasks bad.name =
        some (fallbackRow bad now w) ∧
      tOld ≤ now ∧ now < w := by
  have hdue_good : good ∈ (_delete_old_executions now db).tasks.filter (isDue now) :=
    List.mem_filter.mpr ⟨hgoodmem, hgooddue⟩
  have hdue_bad : bad ∈ (_delete_old_executions now db).tasks.filter (isDue now) :=
    List.mem_filter.mpr ⟨hbadmem, hbaddue⟩
  have hsub : List.Sublist ((db.tasks.filter (isDue now)).map ScheduledTask.name)
      (db.tasks.map ScheduledTask.name) :=
    List.Sublist.map _ (List.filter_sublist db.tasks)
  have hnodup' : (((_delete_old_executions now db).tasks.filter (isDue now)).map
      ScheduledTask.name).Nodup := List.Nodup.sublist hsub hnodup
  have hgr_good : getRow (_delete_old_executions now db).tasks good.name = some good :=
    getRow_of_mem_nodup db.tasks good hnodup hgoodmem
  have hgr_bad : getRow (_delete_old_executions now db).tasks bad.name = some bad :=
    getRow_of_mem_nodup db.tasks bad hnodup hbadmem
  have hmain_good := tickLoop_success_record resolver now t v good hres hgate hcompg
    (isDue_spec now good hgooddue).1
    ((_delete_old_executions now db).tasks.filter (isDue now))
    (_delete_old_executions now db)
    (_cleanup_stale_executions resolver interval now db) []
    hdue_good hnodup' hgr_good
  have hmain_bad := tickLoop_failing_record resolver now w bad hresbad hcompb
    (isDue_spec now bad hbaddue).1
    ((_delete_old_executions now db).tasks.filter (isDue now))
    (_delete_old_executions now db)
    (_cleanup_stale_executions resolver interval now db) []
    hdue_bad hnodup' hgr_bad
  refine ⟨hmain_good.1, List.mem_append_left _ hmain_good.2, hmain_bad, ?_,
    compute_next_run_at_gt bad.cron_expression bad.timezone now w hcompb⟩
  obtain ⟨tg, htg, hle⟩ := (isDue_spec now bad hbaddue).2
  rw [hbadold] at htg
  injection htg with htg
  rw [htg]
  exact hle

/-- C8 witness: a concrete two-row tick in which one row's dispatch
raises. -/
theorem tick_fault_isolation_witness :
    getRow (tick c8Resolver 15 exampleBase c8DB).1.tasks c8Good.name =
        some (processedRow c8Good exampleBase 1735732860) ∧
      dispatchOf c8Good ∈ (tick c8Resolver 15 exampleBase c8DB).2 ∧
      getRow (tick c8Resolver 15 exampleBase c8DB).1.tasks c8Bad.name =
        some (fallbackRow c8Bad exampleBase 1735732860) ∧
      1735732740 ≤ exampleBase ∧ exampleBase < 1735732860 := by
  exact tick_fault_isolation c8Resolver 15 exampleBase c8DB c8Good c8Bad c8Handle
    1735732860 1735732860 1735732740
    (by decide) (by decide) (by decide) (by decide) (by decide)
    (by decide) (by decide) (by decide) (by decide) (by decide) (by decide)

end PeriodicTasks
